import Mathlib

/-!
Shallow embedding of the fee-distribution reconciliation job of
`scheduled-tasks.service.ts`: the cron handler `handleCron`, the pass
driver `processTransactions` and the batch executor
`sendSolanaTransactions`, together with the database tables they touch
(`transactions`, `coins`, `transaction_tracker`, `fee_distributions`,
`users`) and the external Solana transfers they submit.

Amounts are exact rationals (the aggregation runs in SQL numeric
arithmetic); event ids, blockhashes and signatures are naturals. The
behaviour of the external network on each submit/confirm attempt is an
oracle parameter, so every run of the embedded code is a pure function of
its inputs. Two snapshots of the externally owned `transactions` table are
passed to a pass, because the code queries it twice (aggregation, then the
`SELECT MAX(id)` re-read) and rows may arrive in between.
-/

/-- Row of the `transactions` table: one ledger event. -/
structure LedgerEvent where
  id : Nat
  coinId : String
  solQuantity : ℚ
deriving DecidableEq

/-- Row of the `coins` table: maps a mint address to its creator wallet. -/
structure Coin where
  mintAddress : String
  creatorWalletAddress : String
deriving DecidableEq

/-- Row of the `fee_distributions` table, as inserted by
`sendSolanaTransactions`: receiver, transaction hash (signature), amount. -/
structure FeeDistribution where
  receiverAddress : String
  transactionHash : Nat
  amount : ℚ
deriving DecidableEq

/-- Local database state owned by the service: the `fee_distributions`
rows, the `users` table — represented as the list of wallet addresses that
have a row (`userWallets`) together with the `fees_claimed_so_far` value
per wallet (`feesClaimedSoFar`; the value at a wallet with no row is
irrelevant, since only existing rows can be read or updated) — and the
append-only `transaction_tracker` values, latest first. -/
structure DbState where
  feeDistributions : List FeeDistribution
  feesClaimedSoFar : String → ℚ
  userWallets : List String
  tracker : List Nat

/-- Latest `transaction_tracker` row (the `SELECT max_transaction_id ...
ORDER BY timestamp DESC LIMIT 1` read), with the `maxTransactionId || 0`
default applied when no pass has committed yet. -/
def getCursor (db : DbState) : Nat :=
  match db.tracker with
  | [] => 0
  | v :: _ => v

/-- Fee rate `0.002` applied per unit of `sol_quantity` by the aggregation
query. -/
def FEE_RATE : ℚ := 2 / 1000

/-- Threshold `0.001` of the `HAVING SUM(t.sol_quantity * 0.002) >= 0.001`
clause of the aggregation query. -/
def HAVING_THRESHOLD : ℚ := 1 / 1000

/-- Lookup of `JOIN coins c ON t.coin_id = c.mint_address`: the creator
wallet of the first coin row carrying the given mint address, when one
exists. -/
def lookupCreator (coins : List Coin) (coinId : String) : Option String :=
  match coins with
  | [] => none
  | c :: rest =>
      if c.mintAddress = coinId then some c.creatorWalletAddress
      else lookupCreator rest coinId

/-- Events selected by `WHERE t.id > $1` with the cursor as parameter. -/
def eligibleEvents (events : List LedgerEvent) (cursor : Nat) : List LedgerEvent :=
  events.filter (fun e => cursor < e.id)

/-- Value of `SUM(t.sol_quantity * 0.002)` over the eligible events of one
creator wallet. -/
def totalSolFor (coins : List Coin) (events : List LedgerEvent) (cursor : Nat)
    (recipient : String) : ℚ :=
  (((eligibleEvents events cursor).filter
      (fun e => lookupCreator coins e.coinId = some recipient)).map
    (fun e => e.solQuantity * FEE_RATE)).sum

/-- One aggregated payout row `(creator_wallet_address, total_sol)`, mapped
by the driver to `{recipient, amount}`. -/
structure Distribution where
  recipient : String
  amount : ℚ
deriving DecidableEq

/-- The aggregation query of `processTransactions`: group the eligible
events by creator wallet via the coin mapping, sum `sol_quantity * 0.002`
per group, and keep the groups passing the `HAVING` threshold. -/
def aggregate (coins : List Coin) (events : List LedgerEvent) (cursor : Nat) :
    List Distribution :=
  (((eligibleEvents events cursor).filterMap
      (fun e => lookupCreator coins e.coinId)).dedup.map
    (fun r => Distribution.mk r (totalSolFor coins events cursor r))).filter
    (fun d => HAVING_THRESHOLD ≤ d.amount)

/-- Batch size constant of `sendSolanaTransactions`. -/
def BATCH_SIZE : Nat := 10

/-- Fee adjustment constant of `sendSolanaTransactions`: send 99% of the
amount to account for gas. -/
def FEE_ADJUSTMENT : ℚ := 99 / 100

/-- Retry budget constant of `sendSolanaTransactions`. -/
def MAX_RETRIES : Nat := 3

/-- Minimum-amount threshold constant of `sendSolanaTransactions`. -/
def MIN_AMOUNT_THRESHOLD : ℚ := 1 / 1000

/-- Lamports per SOL. -/
def LAMPORTS_PER_SOL : ℚ := 1000000000

/-- Value of `Math.floor(dist.amount * LAMPORTS_PER_SOL * FEE_ADJUSTMENT)`:
the lamports actually placed in the transfer instruction for one
distribution. -/
def adjustedAmount (d : Distribution) : ℤ :=
  Int.floor (d.amount * LAMPORTS_PER_SOL * FEE_ADJUSTMENT)

/-- One `SystemProgram.transfer` instruction of a batch transaction. -/
structure TransferInstr where
  toPubkey : String
  lamports : ℤ
deriving DecidableEq

/-- A submitted transaction payload: the recent blockhash obtained for this
attempt plus one transfer instruction per distribution of the batch. -/
structure TxPayload where
  recentBlockhash : Nat
  instrs : List TransferInstr
deriving DecidableEq

/-- Transaction built by one attempt of the batch loop. -/
def buildTransaction (bh : Nat) (batch : List Distribution) : TxPayload :=
  TxPayload.mk bh (batch.map (fun d => TransferInstr.mk d.recipient (adjustedAmount d)))

/-- Outcome of one submit/confirm attempt as observed by the service,
carrying the blockhash the attempt obtained and the signature the network
assigned where applicable. `preSubmitFail` is an error thrown before
anything reached the network; `submitTimedOut` is a confirmation failure
whose `posted` flag says whether the transfer nevertheless executed on
chain; `rejected` is `confirmation.value.err` non-null (the transaction was
included but failed, no value moved); `confirmedDbFail` is a confirmed
transfer whose local database write then failed and rolled back;
`confirmed` is a confirmed transfer whose local write committed. -/
inductive Outcome where
  | preSubmitFail : Outcome
  | submitTimedOut (bh sig : Nat) (posted : Bool) : Outcome
  | rejected (bh sig : Nat) : Outcome
  | confirmedDbFail (bh sig : Nat) : Outcome
  | confirmed (bh sig : Nat) : Outcome
deriving DecidableEq

/-- State threaded through an execution: the local database plus the list
of value transfers that actually executed on the external chain, each with
its signature. -/
structure ExecState where
  db : DbState
  chain : List (Nat × TxPayload)

/-- Chain effect of one attempt: outcomes in which the transfer executed
on chain append the built transaction under its signature. -/
def postEffect (chain : List (Nat × TxPayload)) (batch : List Distribution) :
    Outcome → List (Nat × TxPayload)
  | Outcome.preSubmitFail => chain
  | Outcome.submitTimedOut bh sig posted =>
      if posted then chain ++ [(sig, buildTransaction bh batch)] else chain
  | Outcome.rejected _ _ => chain
  | Outcome.confirmedDbFail bh sig => chain ++ [(sig, buildTransaction bh batch)]
  | Outcome.confirmed bh sig => chain ++ [(sig, buildTransaction bh batch)]

/-- Insert one `fee_distributions` row together with the matching
`UPDATE users SET fees_claimed_so_far = fees_claimed_so_far + $1 WHERE
wallet_address = $2`, the two statements the code issues per distribution
inside the `BEGIN .. COMMIT` block. The UPDATE adds the unadjusted amount
to the `users` rows whose wallet matches the recipient; when no such row
exists it silently affects zero rows and no balance changes. -/
def insertDistribution (db : DbState) (d : Distribution) (sig : Nat) : DbState :=
  DbState.mk (db.feeDistributions ++ [FeeDistribution.mk d.recipient sig d.amount])
    (fun w => if w = d.recipient ∧ w ∈ db.userWallets
              then db.feesClaimedSoFar w + d.amount
              else db.feesClaimedSoFar w)
    db.userWallets
    db.tracker

/-- The `BEGIN .. COMMIT` block of a confirmed batch: all rows and balance
updates of the batch applied as one atomic unit. -/
def commitBatchDb (db : DbState) (batch : List Distribution) (sig : Nat) : DbState :=
  batch.foldl (fun s d => insertDistribution s d sig) db

/-- Result of executing one batch or a run of batches: either the loop set
`success`, or an error was rethrown, aborting the pass; `aborted` carries
the batch whose processing threw. -/
inductive ExecResult where
  | success (s : ExecState) : ExecResult
  | aborted (s : ExecState) (failedBatch : List Distribution) : ExecResult

/-- The `while (!success && retryCount < MAX_RETRIES)` loop for one batch.
`o` gives the outcome of the attempt with each `retryCount` value `rc`;
`left` is the remaining budget `MAX_RETRIES - rc`. On `confirmed` the
durable batch write commits and the loop ends with success; on every other
outcome the error is caught, `retryCount` is incremented and the attempt is
repeated, until the budget is exhausted and the error is rethrown. -/
def runBatchFrom (o : Nat → Outcome) (batch : List Distribution) :
    Nat → Nat → ExecState → ExecResult
  | 0, _, s => ExecResult.aborted s batch
  | left + 1, rc, s =>
    let out := o rc
    let chain2 := postEffect s.chain batch out
    match out with
    | Outcome.confirmed _ sig =>
        ExecResult.success (ExecState.mk (commitBatchDb s.db batch sig) chain2)
    | _ => runBatchFrom o batch left (rc + 1) (ExecState.mk s.db chain2)

/-- One batch of the batch loop, starting with `retryCount = 0` and the
full retry budget. -/
def runBatch (o : Nat → Outcome) (batch : List Distribution) (s : ExecState) : ExecResult :=
  runBatchFrom o batch MAX_RETRIES 0 s

/-- The `i += BATCH_SIZE` slicing of `sendSolanaTransactions`: consecutive
chunks of size `n`, in order. -/
def chunksOf {α : Type} (n : Nat) : List α → List (List α)
  | [] => []
  | d :: ds => (d :: ds.take (n - 1)) :: chunksOf n (ds.drop (n - 1))
termination_by l => l.length
decreasing_by
  simp only [List.length_cons, List.length_drop]
  omega

/-- The batch loop of `sendSolanaTransactions`: run the batches in order
with a rethrown error stopping the loop; `o` maps the batch index and the
`retryCount` to the attempt outcome. -/
def sendBatches (o : Nat → Nat → Outcome) :
    List (List Distribution) → Nat → ExecState → ExecResult
  | [], _, s => ExecResult.success s
  | b :: bs, i, s =>
    match runBatch (o i) b s with
    | ExecResult.success s2 => sendBatches o bs (i + 1) s2
    | r => r

/-- `sendSolanaTransactions`: drop distributions below
`MIN_AMOUNT_THRESHOLD`, return early when none remain, otherwise process
the chunks of `BATCH_SIZE` in order. -/
def sendSolanaTransactions (o : Nat → Nat → Outcome) (distributions : List Distribution)
    (s : ExecState) : ExecResult :=
  let validDistributions :=
    distributions.filter (fun d => MIN_AMOUNT_THRESHOLD ≤ d.amount)
  sendBatches o (chunksOf BATCH_SIZE validDistributions) 0 s

/-- Input snapshots of the externally owned tables for one pass: the
`coins` rows, the `transactions` rows visible to the aggregation query, and
the `transactions` rows visible to the later `SELECT MAX(id)` re-read
(possibly more, since the upstream ingestion keeps appending). -/
structure PassInput where
  coins : List Coin
  eventsAtAggregation : List LedgerEvent
  eventsAtReRead : List LedgerEvent

/-- Value of `SELECT MAX(id) as max_id FROM transactions` (0 when empty). -/
def maxEventId (events : List LedgerEvent) : Nat :=
  (events.map (fun e => e.id)).foldl max 0

/-- Result of one pass of `processTransactions`: `committed` when
distributions ran and the tracker insert committed, `noop` when the
aggregation returned no rows, `aborted` when an error was rethrown — the
tracker insert rolls back, but the per-batch distribution writes used
separate connections and stay committed. -/
inductive PassResult where
  | committed (s : ExecState) : PassResult
  | noop (s : ExecState) : PassResult
  | aborted (s : ExecState) (failedBatch : List Distribution) : PassResult

/-- `processTransactions`: read the cursor, aggregate, and when rows exist
send the distributions and append the re-read `MAX(id)` to the tracker. -/
def processTransactions (o : Nat → Nat → Outcome) (inp : PassInput)
    (s : ExecState) : PassResult :=
  let cursor := getCursor s.db
  let rows := aggregate inp.coins inp.eventsAtAggregation cursor
  if rows = [] then PassResult.noop s
  else
    match sendSolanaTransactions o rows s with
    | ExecResult.success s2 =>
        PassResult.committed (ExecState.mk
          (DbState.mk s2.db.feeDistributions s2.db.feesClaimedSoFar
            s2.db.userWallets
            (maxEventId inp.eventsAtReRead :: s2.db.tracker)) s2.chain)
    | ExecResult.aborted s2 fb => PassResult.aborted s2 fb

set_option linter.unusedVariables false in
/-- `handleCron`: invoke `processTransactions` and swallow any error (it is
only logged). The `passRunning` argument stands for a would-be single-flight
flag; the handler consults no such flag, so the pass runs regardless of it. -/
def handleCron (passRunning : Bool) (o : Nat → Nat → Outcome) (inp : PassInput)
    (s : ExecState) : ExecState :=
  match processTransactions o inp s with
  | PassResult.committed s2 => s2
  | PassResult.noop s2 => s2
  | PassResult.aborted s2 _ => s2

/-- Modelled from the spec: the single-flight trigger of §4.4 — "if one is
already Running, the new trigger is skipped and logged, never queued" — so
with a pass Running the trigger leaves the state untouched. -/
def specSingleFlightTrigger (passRunning : Bool) (o : Nat → Nat → Outcome)
    (inp : PassInput) (s : ExecState) : ExecState :=
  if passRunning then s else handleCron passRunning o inp s

/-- Modelled from the spec: `observedMaxId` of §4.2, the maximum event id
in the event set evaluated by the aggregation step — the events past the
cursor in the aggregation snapshot. -/
def observedMaxId (inp : PassInput) (cursor : Nat) : Nat :=
  maxEventId (eligibleEvents inp.eventsAtAggregation cursor)

/-- Database state of a pass result. -/
def passDb : PassResult → DbState
  | PassResult.committed s => s.db
  | PassResult.noop s => s.db
  | PassResult.aborted s _ => s.db

/-- Chain state of a pass result. -/
def passChain : PassResult → List (Nat × TxPayload)
  | PassResult.committed s => s.chain
  | PassResult.noop s => s.chain
  | PassResult.aborted s _ => s.chain

/-- Whether a pass committed. -/
def passCommitted : PassResult → Bool
  | PassResult.committed _ => true
  | _ => false

/-- Rows of `fee_distributions` added since a reference state (every
operation of the service appends). -/
def newRecords (pre post : DbState) : List FeeDistribution :=
  post.feeDistributions.drop pre.feeDistributions.length

/-- Empty local database: in particular, the `users` table has no rows. -/
def emptyDb : DbState := DbState.mk [] (fun _ => 0) [] []

/-- Empty execution state. -/
def emptyState : ExecState := ExecState.mk emptyDb []

/-- Local database whose `users` table holds one row, for wallet W with
zero claimed so far. -/
def dbUserW : DbState := DbState.mk [] (fun _ => 0) ["W"] []

/-- Execution state over `dbUserW`. -/
def stateWithUserW : ExecState := ExecState.mk dbUserW []

/-- Whether a batch-execution result is a success. -/
def execSucceeded : ExecResult → Bool
  | ExecResult.success _ => true
  | ExecResult.aborted _ _ => false

/-- Coin rows with a single creator wallet W. -/
def coinsW : List Coin := [Coin.mk "A" "W"]

/-- Event id 1, quantity 10, on coin A. -/
def ev1 : LedgerEvent := LedgerEvent.mk 1 "A" 10

/-- Event id 2, quantity 5, on coin A: arrives between the aggregation
query and the MAX(id) re-read. -/
def ev2 : LedgerEvent := LedgerEvent.mk 2 "A" 5

/-- Pass input in which one event is visible to the aggregation and a
second one arrives before the re-read. -/
def inpGrow : PassInput := PassInput.mk coinsW [ev1] [ev1, ev2]

/-- Coin rows for two creators W and V. -/
def coinsWV : List Coin := [Coin.mk "A" "W", Coin.mk "B" "V"]

/-- Event id 2, quantity 1/10, on coin B: its creator V aggregates to
1/5000 SOL, below the threshold. -/
def evSmall : LedgerEvent := LedgerEvent.mk 2 "B" (1/10)

/-- Pass input with one above-threshold creator and one sub-threshold
creator; no rows arrive during the pass. -/
def inpWV : PassInput := PassInput.mk coinsWV [ev1, evSmall] [ev1, evSmall]

/-- Scenario-A style input: the single event ev1, stable across the pass. -/
def inpA : PassInput := PassInput.mk coinsW [ev1] [ev1]

/-- Oracle: every attempt confirms with blockhash 7, signature 99. -/
def oracleOk : Nat → Nat → Outcome := fun _ _ => Outcome.confirmed 7 99

/-- Oracle: first attempt of each batch rejected on chain, second confirms. -/
def oracleRejectedThenOk : Nat → Nat → Outcome := fun _ rc =>
  if rc = 0 then Outcome.rejected 5 41 else Outcome.confirmed 6 42

/-- Chain state of a batch-execution result. -/
def execChain : ExecResult → List (Nat × TxPayload)
  | ExecResult.success s => s.chain
  | ExecResult.aborted s _ => s.chain

/-- Database state of a batch-execution result. -/
def execDb : ExecResult → DbState
  | ExecResult.success s => s.db
  | ExecResult.aborted s _ => s.db

/-- Distribution of 1/50 SOL to wallet W. -/
def dW : Distribution := Distribution.mk "W" (1/50)

/-- Oracle for one batch: the first attempt confirms on chain but the local
write fails; the second attempt confirms and commits. -/
def oC3 : Nat → Outcome := fun rc =>
  if rc = 0 then Outcome.confirmedDbFail 5 41 else Outcome.confirmed 6 42

/-- Oracle for one batch: the first attempt times out after the transfer
posted on chain; the second attempt confirms and commits. -/
def oC4 : Nat → Outcome := fun rc =>
  if rc = 0 then Outcome.submitTimedOut 5 41 true else Outcome.confirmed 6 42

/-- Sum of the amounts a batch assigns to one wallet. -/
def claimedDelta (w : String) (b : List Distribution) : ℚ :=
  ((b.filter (fun x => x.recipient = w)).map (fun x => x.amount)).sum

/-- Oracle: every attempt throws before reaching the network. -/
def oracleAlwaysFail : Nat → Nat → Outcome := fun _ _ => Outcome.preSubmitFail


/-- Chunking loses no element: the concatenation of the chunks is the list. -/
theorem chunksOf_flatten {α : Type} (n : Nat) (l : List α) :
    (chunksOf n l).flatten = l := by
  induction l using chunksOf.induct n with
  | case1 => simp [chunksOf]
  | case2 d ds ih =>
    rw [chunksOf]
    simp only [List.flatten_cons, ih]
    simp [List.take_append_drop]

/-- The initial accumulator is below a maximum fold. -/
theorem foldl_max_init_le (l : List Nat) (a : Nat) : a ≤ l.foldl max a := by
  induction l generalizing a with
  | nil => exact Nat.le_refl a
  | cons x xs ih => exact Nat.le_trans (Nat.le_max_left a x) (ih (max a x))

/-- Every member is below a maximum fold. -/
theorem le_foldl_max (l : List Nat) (a x : Nat) (hx : x ∈ l) : x ≤ l.foldl max a := by
  induction l generalizing a with
  | nil => cases hx
  | cons y ys ih =>
    rcases List.mem_cons.mp hx with rfl | hx2
    · exact Nat.le_trans (Nat.le_max_right a x) (foldl_max_init_le ys (max a x))
    · exact ih (max a y) hx2

/-- Every event id is bounded by the `MAX(id)` read. -/
theorem le_maxEventId (events : List LedgerEvent) (e : LedgerEvent)
    (he : e ∈ events) : e.id ≤ maxEventId events :=
  le_foldl_max _ 0 e.id (List.mem_map.mpr ⟨e, he, rfl⟩)

/-- Unfolding of a batch commit by one distribution. -/
theorem commitBatchDb_cons (db : DbState) (d : Distribution)
    (bs : List Distribution) (sig : Nat) :
    commitBatchDb db (d :: bs) sig =
      commitBatchDb (insertDistribution db d sig) bs sig := rfl

/-- A batch commit appends exactly one row per batch member, in order. -/
theorem commitBatchDb_records (b : List Distribution) (db : DbState) (sig : Nat) :
    (commitBatchDb db b sig).feeDistributions =
      db.feeDistributions ++
        b.map (fun d => FeeDistribution.mk d.recipient sig d.amount) := by
  induction b generalizing db with
  | nil => simp [commitBatchDb]
  | cons d bs ih =>
    rw [commitBatchDb_cons, ih]
    simp [insertDistribution]

/-- A batch commit leaves the tracker untouched. -/
theorem commitBatchDb_tracker (b : List Distribution) (db : DbState) (sig : Nat) :
    (commitBatchDb db b sig).tracker = db.tracker := by
  induction b generalizing db with
  | nil => rfl
  | cons d bs ih => rw [commitBatchDb_cons, ih]; rfl

/-- A batch commit raises the claimed total of each wallet that has a
`users` row by the batch's amounts for that wallet, and leaves the
valuation of a wallet with no row untouched (the UPDATE affects zero
rows there). -/
theorem commitBatchDb_claimed (b : List Distribution) (db : DbState) (sig : Nat)
    (w : String) :
    (commitBatchDb db b sig).feesClaimedSoFar w =
      if w ∈ db.userWallets then db.feesClaimedSoFar w + claimedDelta w b
      else db.feesClaimedSoFar w := by
  induction b generalizing db with
  | nil => simp [commitBatchDb, claimedDelta]
  | cons d bs ih =>
    rw [commitBatchDb_cons, ih]
    simp only [insertDistribution]
    by_cases hw : w ∈ db.userWallets
    · by_cases hr : d.recipient = w
      · simp [claimedDelta, hw, hr, List.filter_cons, add_assoc]
      · have hr2 : ¬ w = d.recipient := fun h => hr h.symm
        simp [claimedDelta, hw, hr, hr2, List.filter_cons]
    · simp [claimedDelta, hw]

/-- With pairwise-distinct recipients, the batch members paying a given
member's wallet reduce to that member alone. -/
theorem filter_recipient_singleton (b : List Distribution) (d : Distribution)
    (hnd : (b.map (fun x => x.recipient)).Nodup) (hd : d ∈ b) :
    b.filter (fun x => x.recipient = d.recipient) = [d] := by
  induction b with
  | nil => cases hd
  | cons a bs ih =>
    have hnd2 : (bs.map (fun x => x.recipient)).Nodup := (List.nodup_cons.mp hnd).2
    have hna : a.recipient ∉ bs.map (fun x => x.recipient) := (List.nodup_cons.mp hnd).1
    rcases List.mem_cons.mp hd with rfl | hd2
    · have hnil : bs.filter (fun x => x.recipient = d.recipient) = [] := by
        rw [List.filter_eq_nil_iff]
        intro x hx
        simp only [decide_eq_true_eq]
        intro hxr
        exact hna (List.mem_map.mpr ⟨x, hx, hxr⟩)
      simp [List.filter_cons, hnil]
    · have hne : ¬ a.recipient = d.recipient := by
        intro he
        exact hna (he ▸ List.mem_map.mpr ⟨d, hd2, rfl⟩)
      simp [List.filter_cons, hne, ih hnd2 hd2]

/-- A successful batch run commits the whole batch under one signature on
top of the incoming database. -/
theorem runBatchFrom_success_shape (o : Nat → Outcome) (batch : List Distribution)
    (left rc : Nat) (s s2 : ExecState)
    (h : runBatchFrom o batch left rc s = ExecResult.success s2) :
    ∃ sig, s2.db = commitBatchDb s.db batch sig := by
  induction left generalizing rc s with
  | zero => simp [runBatchFrom] at h
  | succ n ih =>
    rw [runBatchFrom] at h
    rcases ho : o rc with _ | ⟨bh, sig, p⟩ | ⟨bh, sig⟩ | ⟨bh, sig⟩ | ⟨bh, sig⟩ <;>
      simp only [ho] at h
    case preSubmitFail =>
      exact ih (rc + 1)
        (ExecState.mk s.db (postEffect s.chain batch Outcome.preSubmitFail)) h
    case submitTimedOut =>
      exact ih (rc + 1)
        (ExecState.mk s.db (postEffect s.chain batch (Outcome.submitTimedOut bh sig p))) h
    case rejected =>
      exact ih (rc + 1)
        (ExecState.mk s.db (postEffect s.chain batch (Outcome.rejected bh sig))) h
    case confirmedDbFail =>
      exact ih (rc + 1)
        (ExecState.mk s.db (postEffect s.chain batch (Outcome.confirmedDbFail bh sig))) h
    case confirmed =>
      cases h
      exact ⟨sig, rfl⟩

/-- An aborted batch run leaves the database untouched and reports the
batch it was processing. -/
theorem runBatchFrom_aborted_shape (o : Nat → Outcome) (batch : List Distribution)
    (left rc : Nat) (s s2 : ExecState) (fb : List Distribution)
    (h : runBatchFrom o batch left rc s = ExecResult.aborted s2 fb) :
    s2.db = s.db ∧ fb = batch := by
  induction left generalizing rc s with
  | zero =>
    rw [runBatchFrom] at h
    cases h
    exact ⟨rfl, rfl⟩
  | succ n ih =>
    rw [runBatchFrom] at h
    rcases ho : o rc with _ | ⟨bh, sig, p⟩ | ⟨bh, sig⟩ | ⟨bh, sig⟩ | ⟨bh, sig⟩ <;>
      simp only [ho] at h
    case preSubmitFail =>
      exact ih (rc + 1)
        (ExecState.mk s.db (postEffect s.chain batch Outcome.preSubmitFail)) h
    case submitTimedOut =>
      exact ih (rc + 1)
        (ExecState.mk s.db (postEffect s.chain batch (Outcome.submitTimedOut bh sig p))) h
    case rejected =>
      exact ih (rc + 1)
        (ExecState.mk s.db (postEffect s.chain batch (Outcome.rejected bh sig))) h
    case confirmedDbFail =>
      exact ih (rc + 1)
        (ExecState.mk s.db (postEffect s.chain batch (Outcome.confirmedDbFail bh sig))) h
    case confirmed => cases h

/-- A successful batch-loop run preserves the tracker and appends only
rows whose receiver is a recipient of some processed batch. -/
theorem sendBatches_success_shape (o : Nat → Nat → Outcome)
    (bs : List (List Distribution)) (i : Nat) (s s2 : ExecState)
    (h : sendBatches o bs i s = ExecResult.success s2) :
    s2.db.tracker = s.db.tracker ∧
    ∃ extra, s2.db.feeDistributions = s.db.feeDistributions ++ extra ∧
      ∀ rec ∈ extra,
        rec.receiverAddress ∈ bs.flatten.map (fun d => d.recipient) := by
  induction bs generalizing i s with
  | nil =>
    rw [sendBatches] at h
    cases h
    exact ⟨rfl, [], by simp, by simp⟩
  | cons b rest ih =>
    rw [sendBatches] at h
    rcases hr : runBatch (o i) b s with s3 | ⟨s3, fb⟩ <;> rw [hr] at h
    · obtain ⟨sig, hdb⟩ := runBatchFrom_success_shape (o i) b MAX_RETRIES 0 s s3 hr
      obtain ⟨htr, extra, hfd, hsub⟩ := ih (i + 1) s3 h
      refine ⟨?_,
        b.map (fun d => FeeDistribution.mk d.recipient sig d.amount) ++ extra,
        ?_, ?_⟩
      · rw [htr, hdb, commitBatchDb_tracker]
      · rw [hfd, hdb, commitBatchDb_records]
        simp [List.append_assoc]
      · intro rec hrec
        rcases List.mem_append.mp hrec with hb | hex
        · obtain ⟨d, hd, hrd⟩ := List.mem_map.mp hb
          simp only [List.flatten_cons, List.map_append, List.mem_append]
          exact Or.inl (List.mem_map.mpr ⟨d, hd, by rw [← hrd]⟩)
        · have := hsub rec hex
          simp only [List.flatten_cons, List.map_append, List.mem_append]
          exact Or.inr this
    · cases h

/-- An aborted batch-loop run preserves the tracker, reports the batch
whose processing threw, and appends only rows whose receiver is a
recipient of an earlier (successful) batch. -/
theorem sendBatches_aborted_shape (o : Nat → Nat → Outcome)
    (bs : List (List Distribution)) (i : Nat) (s s2 : ExecState)
    (fb : List Distribution)
    (h : sendBatches o bs i s = ExecResult.aborted s2 fb) :
    s2.db.tracker = s.db.tracker ∧
    ∃ pre post, bs = pre ++ fb :: post ∧
      ∃ extra, s2.db.feeDistributions = s.db.feeDistributions ++ extra ∧
        ∀ rec ∈ extra,
          rec.receiverAddress ∈ pre.flatten.map (fun d => d.recipient) := by
  induction bs generalizing i s with
  | nil => rw [sendBatches] at h; cases h
  | cons b rest ih =>
    rw [sendBatches] at h
    rcases hr : runBatch (o i) b s with s3 | ⟨s3, fb2⟩ <;> rw [hr] at h
    · obtain ⟨sig, hdb⟩ := runBatchFrom_success_shape (o i) b MAX_RETRIES 0 s s3 hr
      obtain ⟨htr, pre, post, hbs, extra, hfd, hsub⟩ := ih (i + 1) s3 h
      refine ⟨by rw [htr, hdb, commitBatchDb_tracker], b :: pre, post,
        by simp [hbs], ?_⟩
      refine ⟨b.map (fun d => FeeDistribution.mk d.recipient sig d.amount) ++ extra,
        ?_, ?_⟩
      · rw [hfd, hdb, commitBatchDb_records]
        simp [List.append_assoc]
      · intro rec hrec
        rcases List.mem_append.mp hrec with hb | hex
        · obtain ⟨d, hd, hrd⟩ := List.mem_map.mp hb
          simp only [List.flatten_cons, List.map_append, List.mem_append]
          exact Or.inl (List.mem_map.mpr ⟨d, hd, by rw [← hrd]⟩)
        · have := hsub rec hex
          simp only [List.flatten_cons, List.map_append, List.mem_append]
          exact Or.inr this
    · obtain ⟨hdb, hfb⟩ :=
        runBatchFrom_aborted_shape (o i) b MAX_RETRIES 0 s s3 fb2 hr
      cases h
      refine ⟨by rw [hdb], [], rest, by simp [hfb], [], by simp [hdb], by simp⟩

/-- The recipients of the aggregation output are pairwise distinct. -/
theorem aggregate_recipients_nodup (coins : List Coin)
    (events : List LedgerEvent) (cursor : Nat) :
    ((aggregate coins events cursor).map (fun d => d.recipient)).Nodup := by
  unfold aggregate
  rw [List.filter_map, List.map_map]
  have hcomp :
      ((fun d => d.recipient) ∘
        fun r => Distribution.mk r (totalSolFor coins events cursor r)) = id := by
    funext r
    rfl
  rw [hcomp, List.map_id]
  exact (List.nodup_dedup _).filter _

/-- Every aggregation row passed the HAVING threshold. -/
theorem aggregate_mem_threshold (coins : List Coin) (events : List LedgerEvent)
    (cursor : Nat) (d : Distribution) (hd : d ∈ aggregate coins events cursor) :
    HAVING_THRESHOLD ≤ d.amount := by
  unfold aggregate at hd
  have := (List.mem_filter.mp hd).2
  simpa using this

/-- Inversion of a committed pass: the send succeeded on the aggregation
rows and the tracker gained the re-read maximum. -/
theorem processTransactions_committed_inv (o : Nat → Nat → Outcome)
    (inp : PassInput) (s s2 : ExecState)
    (h : processTransactions o inp s = PassResult.committed s2) :
    ∃ s3, sendSolanaTransactions o
        (aggregate inp.coins inp.eventsAtAggregation (getCursor s.db)) s =
        ExecResult.success s3 ∧
      s2.db.feeDistributions = s3.db.feeDistributions ∧
      s2.db.feesClaimedSoFar = s3.db.feesClaimedSoFar ∧
      s2.db.tracker = maxEventId inp.eventsAtReRead :: s3.db.tracker ∧
      s2.chain = s3.chain := by
  simp only [processTransactions] at h
  split at h
  · cases h
  · split at h
    case _ s3 heq =>
      cases h
      exact ⟨s3, heq, rfl, rfl, rfl, rfl⟩
    case _ => cases h

/-- Inversion of an aborted pass: the send aborted and the state and failed
batch pass through unchanged. -/
theorem processTransactions_aborted_inv (o : Nat → Nat → Outcome)
    (inp : PassInput) (s s2 : ExecState) (fb : List Distribution)
    (h : processTransactions o inp s = PassResult.aborted s2 fb) :
    sendSolanaTransactions o
      (aggregate inp.coins inp.eventsAtAggregation (getCursor s.db)) s =
      ExecResult.aborted s2 fb := by
  simp only [processTransactions] at h
  split at h
  · cases h
  · split at h
    case _ => cases h
    case _ s3 fb2 heq =>
      cases h
      exact heq

/-- The per-creator sum factors as the fee rate times the summed quantity. -/
theorem totalSolFor_eq_rate_mul (coins : List Coin) (events : List LedgerEvent)
    (cursor : Nat) (r : String) :
    totalSolFor coins events cursor r =
      FEE_RATE * (((eligibleEvents events cursor).filter
          (fun e => lookupCreator coins e.coinId = some r)).map
        (fun e => e.solQuantity)).sum := by
  unfold totalSolFor
  rw [List.sum_map_mul_right, mul_comm]

/-- Membership characterization of the aggregation output. -/
theorem mem_aggregate_iff (coins : List Coin) (events : List LedgerEvent)
    (cursor : Nat) (d : Distribution) :
    d ∈ aggregate coins events cursor ↔
      ((∃ e ∈ eligibleEvents events cursor,
          lookupCreator coins e.coinId = some d.recipient) ∧
       d.amount = totalSolFor coins events cursor d.recipient ∧
       HAVING_THRESHOLD ≤ d.amount) := by
  unfold aggregate
  rw [List.mem_filter]
  constructor
  · rintro ⟨hmap, hth⟩
    obtain ⟨r, hr, hmk⟩ := List.mem_map.mp hmap
    obtain ⟨e, he, hl⟩ := List.mem_filterMap.mp (List.mem_dedup.mp hr)
    cases hmk
    exact ⟨⟨e, he, hl⟩, rfl, by simpa using hth⟩
  · rintro ⟨⟨e, he, hl⟩, ha, hth⟩
    refine ⟨List.mem_map.mpr ⟨d.recipient,
      List.mem_dedup.mpr (List.mem_filterMap.mpr ⟨e, he, hl⟩), ?_⟩,
      by simpa using hth⟩
    cases d with
    | mk r a =>
      simp only at ha
      rw [ha]

/-- claim C1 counterexample: a pass in which a recipient row was aggregated
and execution succeeded commits cursor 2 — the `MAX(id)` re-read after a new
event arrived — while the maximum event id of the evaluated event set
(observedMaxId) is 1. -/
theorem cursor_commit_not_observedMaxId_cex :
    passCommitted (processTransactions oracleOk inpGrow emptyState) = true ∧
    (passDb (processTransactions oracleOk inpGrow emptyState)).tracker = [2] ∧
    observedMaxId inpGrow (getCursor emptyState.db) = 1 := by
  refine ⟨?_, ?_, ?_⟩ <;>
  norm_num [processTransactions, aggregate, eligibleEvents, lookupCreator, totalSolFor,
    FEE_RATE, HAVING_THRESHOLD, sendSolanaTransactions, MIN_AMOUNT_THRESHOLD, chunksOf,
    BATCH_SIZE, sendBatches, runBatch, runBatchFrom, MAX_RETRIES, postEffect,
    commitBatchDb, insertDistribution, buildTransaction, maxEventId, getCursor,
    passDb, passCommitted, observedMaxId, newRecords, emptyState, emptyDb,
    List.filterMap_cons, List.filterMap_nil, List.filter_cons, List.filter_nil,
    List.dedup_nil, List.dedup_cons_of_mem, List.dedup_cons_of_not_mem,
    List.sum_cons, List.sum_nil, List.mem_cons, List.not_mem_nil, inpGrow, coinsW, ev1, ev2, oracleOk]

/-- claim C2 counterexample: the committed cursor 2 covers sub-threshold
creator V's event id 2, yet the durable state holds no distribution row and
no balance update for V — the decision to skip it is recorded nowhere. -/
theorem subthreshold_skipped_cex :
    passCommitted (processTransactions oracleOk inpWV emptyState) = true ∧
    (passDb (processTransactions oracleOk inpWV emptyState)).tracker = [2] ∧
    (passDb (processTransactions oracleOk inpWV emptyState)).feeDistributions =
      [FeeDistribution.mk "W" 99 (1/50)] ∧
    (passDb (processTransactions oracleOk inpWV emptyState)).feesClaimedSoFar "V" = 0 := by
  refine ⟨?_, ?_, ?_, ?_⟩ <;>
  norm_num [show ("A":String) ≠ "B" from by decide, show ("B":String) ≠ "A" from by decide,
    show ("W":String) ≠ "V" from by decide, show ("V":String) ≠ "W" from by decide,
    processTransactions, aggregate, eligibleEvents, lookupCreator, totalSolFor,
    FEE_RATE, HAVING_THRESHOLD, sendSolanaTransactions, MIN_AMOUNT_THRESHOLD, chunksOf,
    BATCH_SIZE, sendBatches, runBatch, runBatchFrom, MAX_RETRIES, postEffect,
    commitBatchDb, insertDistribution, buildTransaction, maxEventId, getCursor,
    passDb, passCommitted, observedMaxId, newRecords, emptyState, emptyDb,
    List.filterMap_cons, List.filterMap_nil, List.filter_cons, List.filter_nil,
    List.dedup_nil, List.dedup_cons_of_mem, List.dedup_cons_of_not_mem,
    List.sum_cons, List.sum_nil, List.mem_cons, List.not_mem_nil, inpWV, coinsWV, ev1, evSmall, oracleOk]

/-- claim C5 counterexample: a Rejected (`confirmation.value.err`) first
attempt does not abort the pass — the batch is retried and the pass commits
on the second attempt. -/
theorem rejected_is_retried_cex :
    passCommitted (processTransactions oracleRejectedThenOk inpA emptyState) = true ∧
    (passDb (processTransactions oracleRejectedThenOk inpA emptyState)).tracker = [1] := by
  refine ⟨?_, ?_⟩ <;>
  norm_num [processTransactions, aggregate, eligibleEvents, lookupCreator, totalSolFor,
    FEE_RATE, HAVING_THRESHOLD, sendSolanaTransactions, MIN_AMOUNT_THRESHOLD, chunksOf,
    BATCH_SIZE, sendBatches, runBatch, runBatchFrom, MAX_RETRIES, postEffect,
    commitBatchDb, insertDistribution, buildTransaction, maxEventId, getCursor,
    passDb, passCommitted, observedMaxId, newRecords, emptyState, emptyDb,
    List.filterMap_cons, List.filterMap_nil, List.filter_cons, List.filter_nil,
    List.dedup_nil, List.dedup_cons_of_mem, List.dedup_cons_of_not_mem,
    List.sum_cons, List.sum_nil, List.mem_cons, List.not_mem_nil, inpA, coinsW, ev1, oracleRejectedThenOk]

/-- claim C9 counterexample: a trigger firing while a pass is Running is not
skipped — the handler runs a full pass (the tracker gains a row), whereas
the spec-modelled single-flight trigger leaves the state untouched. -/
theorem no_single_flight_cex :
    (handleCron true oracleOk inpA emptyState).db.tracker = [1] ∧
    (specSingleFlightTrigger true oracleOk inpA emptyState).db.tracker = [] := by
  refine ⟨?_, ?_⟩ <;>
  norm_num [handleCron, specSingleFlightTrigger, processTransactions, aggregate, eligibleEvents, lookupCreator, totalSolFor,
    FEE_RATE, HAVING_THRESHOLD, sendSolanaTransactions, MIN_AMOUNT_THRESHOLD, chunksOf,
    BATCH_SIZE, sendBatches, runBatch, runBatchFrom, MAX_RETRIES, postEffect,
    commitBatchDb, insertDistribution, buildTransaction, maxEventId, getCursor,
    passDb, passCommitted, observedMaxId, newRecords, emptyState, emptyDb,
    List.filterMap_cons, List.filterMap_nil, List.filter_cons, List.filter_nil,
    List.dedup_nil, List.dedup_cons_of_mem, List.dedup_cons_of_not_mem,
    List.sum_cons, List.sum_nil, List.mem_cons, List.not_mem_nil, inpA, coinsW, ev1, oracleOk]

/-- claim C3 amended: after a confirmed transfer whose local write failed,
the loop retries the entire batch as a fresh external submission. -/
theorem dbfail_retry_resubmits (o : Nat → Outcome) (batch : List Distribution)
    (s : ExecState) (bh0 sig0 bh1 sig1 : Nat)
    (h0 : o 0 = Outcome.confirmedDbFail bh0 sig0)
    (h1 : o 1 = Outcome.confirmed bh1 sig1) :
    runBatch o batch s = ExecResult.success (ExecState.mk
      (commitBatchDb s.db batch sig1)
      (s.chain ++ [(sig0, buildTransaction bh0 batch),
                   (sig1, buildTransaction bh1 batch)])) := by
  simp [runBatch, MAX_RETRIES, runBatchFrom, h0, h1, postEffect]

/-- witness for C3 amended. -/
theorem dbfail_retry_resubmits_witness :
    runBatch oC3 [dW] emptyState = ExecResult.success (ExecState.mk
      (commitBatchDb emptyState.db [dW] 42)
      (emptyState.chain ++ [(41, buildTransaction 5 [dW]),
                            (42, buildTransaction 6 [dW])])) :=
  dbfail_retry_resubmits oC3 [dW] emptyState 5 41 6 42 (by simp [oC3]) (by simp [oC3])

/-- claim C3 counterexample: after the confirmed first attempt's local
write failed, the recovery is a second external submission — the chain holds
two executed transfers (signatures 41 and 42, blockhashes 5 and 6) for the
one batch, not a local-write-only retry. -/
theorem dbfail_resubmits_transfer_cex :
    (execChain (runBatch oC3 [dW] emptyState)).map Prod.fst = [41, 42] ∧
    (execChain (runBatch oC3 [dW] emptyState)).map
      (fun p => p.2.recentBlockhash) = [5, 6] := by
  refine ⟨?_, ?_⟩ <;>
  norm_num [runBatch, MAX_RETRIES, runBatchFrom, oC3, postEffect, execChain,
    emptyState, emptyDb, buildTransaction]

/-- claim C4 amended: a resubmission after an ambiguous timeout uses a fresh
blockhash, so its payload differs and a second transfer posts. -/
theorem timeout_resubmit_fresh_payload (o : Nat → Outcome)
    (batch : List Distribution) (s : ExecState) (bh0 sig0 bh1 sig1 : Nat)
    (h0 : o 0 = Outcome.submitTimedOut bh0 sig0 true)
    (h1 : o 1 = Outcome.confirmed bh1 sig1)
    (hbh : bh0 ≠ bh1) :
    runBatch o batch s = ExecResult.success (ExecState.mk
      (commitBatchDb s.db batch sig1)
      (s.chain ++ [(sig0, buildTransaction bh0 batch),
                   (sig1, buildTransaction bh1 batch)])) ∧
    buildTransaction bh0 batch ≠ buildTransaction bh1 batch := by
  constructor
  · simp [runBatch, MAX_RETRIES, runBatchFrom, h0, h1, postEffect]
  · intro h
    exact hbh (congrArg TxPayload.recentBlockhash h)

/-- witness for C4 amended. -/
theorem timeout_resubmit_fresh_payload_witness :
    (runBatch oC4 [dW] emptyState = ExecResult.success (ExecState.mk
      (commitBatchDb emptyState.db [dW] 42)
      (emptyState.chain ++ [(41, buildTransaction 5 [dW]),
                            (42, buildTransaction 6 [dW])])) ∧
     buildTransaction 5 [dW] ≠ buildTransaction 6 [dW]) :=
  timeout_resubmit_fresh_payload oC4 [dW] emptyState 5 41 6 42
    (by simp [oC4]) (by simp [oC4]) (by decide)

/-- claim C4 counterexample: two transferRefs for the same batch contents,
with distinct payloads, and a single distribution row recorded under the
second reference. -/
theorem timeout_two_transferRefs_cex :
    (execChain (runBatch oC4 [dW] emptyState)).map Prod.fst = [41, 42] ∧
    (execChain (runBatch oC4 [dW] emptyState)).map Prod.snd =
      [buildTransaction 5 [dW], buildTransaction 6 [dW]] ∧
    buildTransaction 5 [dW] ≠ buildTransaction 6 [dW] ∧
    (execDb (runBatch oC4 [dW] emptyState)).feeDistributions =
      [FeeDistribution.mk "W" 42 (1/50)] := by
  refine ⟨?_, ?_, ?_, ?_⟩ <;>
  norm_num [runBatch, MAX_RETRIES, runBatchFrom, oC4, postEffect, execChain, execDb,
    emptyState, emptyDb, buildTransaction, commitBatchDb, insertDistribution, dW]

/-- claim C5 amended: a Rejected outcome is retried like any other failure. -/
theorem rejected_retried (o : Nat → Outcome) (batch : List Distribution)
    (s : ExecState) (bh sig bh1 sig1 : Nat)
    (h0 : o 0 = Outcome.rejected bh sig)
    (h1 : o 1 = Outcome.confirmed bh1 sig1) :
    runBatch o batch s = ExecResult.success (ExecState.mk
      (commitBatchDb s.db batch sig1)
      (s.chain ++ [(sig1, buildTransaction bh1 batch)])) := by
  simp [runBatch, MAX_RETRIES, runBatchFrom, h0, h1, postEffect]

/-- witness for C5 amended. -/
theorem rejected_retried_witness :
    runBatch (oracleRejectedThenOk 0) [dW] emptyState = ExecResult.success (ExecState.mk
      (commitBatchDb emptyState.db [dW] 42)
      (emptyState.chain ++ [(42, buildTransaction 6 [dW])])) :=
  rejected_retried (oracleRejectedThenOk 0) [dW] emptyState 5 41 6 42
    (by simp [oracleRejectedThenOk]) (by simp [oracleRejectedThenOk])

/-- claim C1 amended: the committed cursor is the re-read MAX(id). -/
theorem committed_cursor_eq_reread_max (o : Nat → Nat → Outcome) (inp : PassInput)
    (s s2 : ExecState)
    (h : processTransactions o inp s = PassResult.committed s2) :
    getCursor s2.db = maxEventId inp.eventsAtReRead := by
  obtain ⟨s3, _, _, _, htr, _⟩ := processTransactions_committed_inv o inp s s2 h
  simp [getCursor, htr]

/-- witness for C1 amended. -/
theorem committed_cursor_eq_reread_max_witness :
    processTransactions oracleOk inpGrow emptyState =
      PassResult.committed (handleCron true oracleOk inpGrow emptyState) ∧
    getCursor (handleCron true oracleOk inpGrow emptyState).db =
      maxEventId inpGrow.eventsAtReRead :=
  have h : processTransactions oracleOk inpGrow emptyState =
      PassResult.committed (handleCron true oracleOk inpGrow emptyState) := by
    norm_num [handleCron, processTransactions, aggregate, eligibleEvents, lookupCreator,
      totalSolFor, FEE_RATE, HAVING_THRESHOLD, sendSolanaTransactions,
      MIN_AMOUNT_THRESHOLD, chunksOf, BATCH_SIZE, sendBatches, runBatch, runBatchFrom,
      MAX_RETRIES, postEffect, commitBatchDb, insertDistribution, buildTransaction,
      maxEventId, getCursor, emptyState, emptyDb, inpGrow, coinsW, ev1, ev2, oracleOk,
      List.filterMap_cons, List.filter_cons, List.dedup_nil, List.dedup_cons_of_mem,
      List.dedup_cons_of_not_mem, List.sum_cons, List.sum_nil, List.mem_cons,
      List.not_mem_nil]
  ⟨h, committed_cursor_eq_reread_max oracleOk inpGrow emptyState _ h⟩

/-- claim C2 amended: a committed pass leaves every re-read event at or
below the new cursor, while the rows recorded in the pass belong only to
recipients whose aggregated amount passed the threshold. -/
theorem committed_pass_drops_subthreshold (o : Nat → Nat → Outcome)
    (inp : PassInput) (s s2 : ExecState)
    (h : processTransactions o inp s = PassResult.committed s2) :
    (∀ e ∈ inp.eventsAtReRead, e.id ≤ getCursor s2.db) ∧
    (∀ rec ∈ newRecords s.db s2.db,
      ∃ d ∈ aggregate inp.coins inp.eventsAtAggregation (getCursor s.db),
        rec.receiverAddress = d.recipient ∧ HAVING_THRESHOLD ≤ d.amount) := by
  obtain ⟨s3, hsend, hfd, _, htr, _⟩ := processTransactions_committed_inv o inp s s2 h
  constructor
  · intro e he
    have hcur : getCursor s2.db = maxEventId inp.eventsAtReRead := by
      simp [getCursor, htr]
    rw [hcur]
    exact le_maxEventId _ e he
  · simp only [sendSolanaTransactions] at hsend
    obtain ⟨htr3, extra, hfd3, hsub⟩ := sendBatches_success_shape _ _ _ _ _ hsend
    intro rec hrec
    have hnr : newRecords s.db s2.db = extra := by
      unfold newRecords
      rw [hfd, hfd3, List.drop_left]
    rw [hnr] at hrec
    have hmem := hsub rec hrec
    rw [chunksOf_flatten] at hmem
    obtain ⟨d, hdval, hrd⟩ := List.mem_map.mp hmem
    have hdrows : d ∈ aggregate inp.coins inp.eventsAtAggregation (getCursor s.db) :=
      List.mem_of_mem_filter hdval
    exact ⟨d, hdrows, hrd.symm, aggregate_mem_threshold _ _ _ _ hdrows⟩

/-- witness for C2 amended. -/
theorem committed_pass_drops_subthreshold_witness :
    processTransactions oracleOk inpWV emptyState =
      PassResult.committed (handleCron true oracleOk inpWV emptyState) ∧
    ((∀ e ∈ inpWV.eventsAtReRead,
        e.id ≤ getCursor (handleCron true oracleOk inpWV emptyState).db) ∧
     (∀ rec ∈ newRecords emptyState.db (handleCron true oracleOk inpWV emptyState).db,
        ∃ d ∈ aggregate inpWV.coins inpWV.eventsAtAggregation
            (getCursor emptyState.db),
          rec.receiverAddress = d.recipient ∧ HAVING_THRESHOLD ≤ d.amount)) :=
  have h : processTransactions oracleOk inpWV emptyState =
      PassResult.committed (handleCron true oracleOk inpWV emptyState) := by
    norm_num [show ("A":String) ≠ "B" from by decide, show ("B":String) ≠ "A" from by decide,
      show ("W":String) ≠ "V" from by decide, show ("V":String) ≠ "W" from by decide,
      handleCron, processTransactions, aggregate, eligibleEvents, lookupCreator,
      totalSolFor, FEE_RATE, HAVING_THRESHOLD, sendSolanaTransactions,
      MIN_AMOUNT_THRESHOLD, chunksOf, BATCH_SIZE, sendBatches, runBatch, runBatchFrom,
      MAX_RETRIES, postEffect, commitBatchDb, insertDistribution, buildTransaction,
      maxEventId, getCursor, emptyState, emptyDb, inpWV, coinsWV, ev1, evSmall, oracleOk,
      List.filterMap_cons, List.filter_cons, List.dedup_nil, List.dedup_cons_of_mem,
      List.dedup_cons_of_not_mem, List.sum_cons, List.sum_nil, List.mem_cons,
      List.not_mem_nil]
  ⟨h, committed_pass_drops_subthreshold oracleOk inpWV emptyState _ h⟩

/-- claim C6: an aborted pass leaves the committed cursor unchanged, and no
row recorded during the pass belongs to a recipient of the failed batch. -/
theorem exhausted_retries_abort (o : Nat → Nat → Outcome) (inp : PassInput)
    (s s2 : ExecState) (fb : List Distribution)
    (h : processTransactions o inp s = PassResult.aborted s2 fb) :
    getCursor s2.db = getCursor s.db ∧
    ∀ rec ∈ newRecords s.db s2.db, ∀ d ∈ fb,
      rec.receiverAddress ≠ d.recipient := by
  have hsend := processTransactions_aborted_inv o inp s s2 fb h
  simp only [sendSolanaTransactions] at hsend
  obtain ⟨htr, pre, post, hbs, extra, hfd, hsub⟩ :=
    sendBatches_aborted_shape _ _ _ _ _ _ hsend
  constructor
  · simp [getCursor, htr]
  · intro rec hrec d hd
    have hnr : newRecords s.db s2.db = extra := by
      unfold newRecords
      rw [hfd, List.drop_left]
    rw [hnr] at hrec
    have hmem := hsub rec hrec
    have hnodup : (((aggregate inp.coins inp.eventsAtAggregation
          (getCursor s.db)).filter
            (fun x => MIN_AMOUNT_THRESHOLD ≤ x.amount)).map
          (fun x => x.recipient)).Nodup :=
      (aggregate_recipients_nodup inp.coins inp.eventsAtAggregation
        (getCursor s.db)).sublist ((List.filter_sublist _).map _)
    have hval : pre.flatten ++ (fb :: post).flatten =
        (aggregate inp.coins inp.eventsAtAggregation (getCursor s.db)).filter
          (fun x => MIN_AMOUNT_THRESHOLD ≤ x.amount) := by
      rw [← List.flatten_append, ← hbs, chunksOf_flatten]
    have hnd2 : ((pre.flatten ++ (fb :: post).flatten).map
        (fun x => x.recipient)).Nodup := by
      rw [hval]
      exact hnodup
    rw [List.map_append] at hnd2
    have hdisj := List.disjoint_of_nodup_append hnd2
    have hd2 : d.recipient ∈ ((fb :: post).flatten.map (fun x => x.recipient)) := by
      simp only [List.flatten_cons, List.map_append, List.mem_append]
      exact Or.inl (List.mem_map.mpr ⟨d, hd, rfl⟩)
    intro heq
    have hin2 : rec.receiverAddress ∈
        ((fb :: post).flatten.map (fun x => x.recipient)) := by
      rw [heq]
      exact hd2
    exact hdisj hmem hin2

/-- witness for C6. -/
theorem exhausted_retries_abort_witness :
    processTransactions oracleAlwaysFail inpA emptyState =
      PassResult.aborted emptyState [dW] ∧
    (getCursor emptyState.db = getCursor emptyState.db ∧
     ∀ rec ∈ newRecords emptyState.db emptyState.db, ∀ d ∈ [dW],
       rec.receiverAddress ≠ d.recipient) :=
  have h : processTransactions oracleAlwaysFail inpA emptyState =
      PassResult.aborted emptyState [dW] := by
    norm_num [processTransactions, aggregate, eligibleEvents, lookupCreator,
      totalSolFor, FEE_RATE, HAVING_THRESHOLD, sendSolanaTransactions,
      MIN_AMOUNT_THRESHOLD, chunksOf, BATCH_SIZE, sendBatches, runBatch, runBatchFrom,
      MAX_RETRIES, postEffect, maxEventId, getCursor, emptyState, emptyDb, inpA,
      coinsW, ev1, oracleAlwaysFail, dW,
      List.filterMap_cons, List.filter_cons, List.dedup_nil, List.dedup_cons_of_mem,
      List.dedup_cons_of_not_mem, List.sum_cons, List.sum_nil, List.mem_cons,
      List.not_mem_nil]
  ⟨h, exhausted_retries_abort oracleAlwaysFail inpA emptyState emptyState [dW] h⟩

/-- claim C7 counterexample: a successful batch for wallet W run against a
database whose `users` table has no row for W still commits and records
exactly one distribution row, but W's claimed balance does not increase —
the UPDATE silently affected zero rows, while the claimed increase the
claim requires (the recorded amount 1/50) is nonzero. -/
theorem missing_user_row_no_balance_cex :
    execSucceeded (runBatch (oracleOk 0) [dW] emptyState) = true ∧
    (execDb (runBatch (oracleOk 0) [dW] emptyState)).feeDistributions =
      [FeeDistribution.mk "W" 99 (1/50)] ∧
    (execDb (runBatch (oracleOk 0) [dW] emptyState)).feesClaimedSoFar "W" =
      emptyState.db.feesClaimedSoFar "W" ∧
    dW.amount ≠ 0 := by
  refine ⟨?_, ?_, ?_, by norm_num [dW]⟩ <;>
  norm_num [runBatch, runBatchFrom, MAX_RETRIES, oracleOk, postEffect, execDb,
    execSucceeded, emptyState, emptyDb, commitBatchDb, insertDistribution, dW,
    List.not_mem_nil]

/-- claim C7 amended: a successful batch writes, in its single atomic unit,
exactly one distribution row per batch member under the batch signature;
the claimed balance of a member whose wallet has a `users` row rises by
exactly the recorded amount, while a member with no `users` row gets the
row but no balance change (the UPDATE silently affects zero rows). -/
theorem batch_records_and_balance_updates (o : Nat → Outcome)
    (batch : List Distribution) (s s2 : ExecState) (d : Distribution)
    (hs : runBatch o batch s = ExecResult.success s2)
    (hnd : (batch.map (fun x => x.recipient)).Nodup)
    (hd : d ∈ batch) :
    ∃ sig,
      (newRecords s.db s2.db).filter
          (fun rec => rec.receiverAddress = d.recipient) =
        [FeeDistribution.mk d.recipient sig d.amount] ∧
      (d.recipient ∈ s.db.userWallets →
        s2.db.feesClaimedSoFar d.recipient =
          s.db.feesClaimedSoFar d.recipient + d.amount) ∧
      (d.recipient ∉ s.db.userWallets →
        s2.db.feesClaimedSoFar d.recipient =
          s.db.feesClaimedSoFar d.recipient) := by
  obtain ⟨sig, hdb⟩ := runBatchFrom_success_shape o batch MAX_RETRIES 0 s s2 hs
  refine ⟨sig, ?_, ?_, ?_⟩
  · have hnr : newRecords s.db s2.db =
        batch.map (fun x => FeeDistribution.mk x.recipient sig x.amount) := by
      unfold newRecords
      rw [hdb, commitBatchDb_records, List.drop_left]
    rw [hnr, List.filter_map]
    have hcomp : ((fun rec : FeeDistribution =>
          decide (rec.receiverAddress = d.recipient)) ∘
        (fun x : Distribution => FeeDistribution.mk x.recipient sig x.amount)) =
        (fun x : Distribution => decide (x.recipient = d.recipient)) := rfl
    rw [hcomp, filter_recipient_singleton batch d hnd hd]
    rfl
  · intro hw
    rw [hdb, commitBatchDb_claimed, if_pos hw]
    congr 1
    unfold claimedDelta
    rw [filter_recipient_singleton batch d hnd hd]
    simp
  · intro hw
    rw [hdb, commitBatchDb_claimed, if_neg hw]

/-- witness for C7 amended, run against a database whose `users` table has
a row for wallet W. -/
theorem batch_records_and_balance_updates_witness :
    (runBatch (oracleOk 0) [dW] stateWithUserW = ExecResult.success (ExecState.mk
      (commitBatchDb stateWithUserW.db [dW] 99)
      (stateWithUserW.chain ++ [(99, buildTransaction 7 [dW])])) ∧
     ([dW].map (fun x => x.recipient)).Nodup ∧ dW ∈ [dW]) ∧
    ∃ sig,
      (newRecords stateWithUserW.db (ExecState.mk
          (commitBatchDb stateWithUserW.db [dW] 99)
          (stateWithUserW.chain ++ [(99, buildTransaction 7 [dW])])).db).filter
          (fun rec => rec.receiverAddress = dW.recipient) =
        [FeeDistribution.mk dW.recipient sig dW.amount] ∧
      (dW.recipient ∈ stateWithUserW.db.userWallets →
        (ExecState.mk (commitBatchDb stateWithUserW.db [dW] 99)
            (stateWithUserW.chain ++
              [(99, buildTransaction 7 [dW])])).db.feesClaimedSoFar dW.recipient =
          stateWithUserW.db.feesClaimedSoFar dW.recipient + dW.amount) ∧
      (dW.recipient ∉ stateWithUserW.db.userWallets →
        (ExecState.mk (commitBatchDb stateWithUserW.db [dW] 99)
            (stateWithUserW.chain ++
              [(99, buildTransaction 7 [dW])])).db.feesClaimedSoFar dW.recipient =
          stateWithUserW.db.feesClaimedSoFar dW.recipient) :=
  have hs : runBatch (oracleOk 0) [dW] stateWithUserW =
      ExecResult.success (ExecState.mk
        (commitBatchDb stateWithUserW.db [dW] 99)
        (stateWithUserW.chain ++ [(99, buildTransaction 7 [dW])])) := by
    norm_num [runBatch, runBatchFrom, MAX_RETRIES, oracleOk, postEffect,
      stateWithUserW, dbUserW]
  ⟨⟨hs, by simp, by simp⟩,
    batch_records_and_balance_updates (oracleOk 0) [dW] stateWithUserW _ dW hs
      (by simp) (by simp)⟩

/-- claim C8: aggregation groups the events past the cursor by recipient
via the coin mapping, pays the fee rate times the summed quantity, and
keeps exactly the recipients at or above the threshold; one event of
quantity 10 yields 1/50 for its recipient, which passes. -/
theorem aggregate_groups_by_recipient :
    (∀ (coins : List Coin) (events : List LedgerEvent) (cursor : Nat)
        (d : Distribution),
      d ∈ aggregate coins events cursor ↔
        ((∃ e ∈ eligibleEvents events cursor,
            lookupCreator coins e.coinId = some d.recipient) ∧
         d.amount = FEE_RATE *
           (((eligibleEvents events cursor).filter
               (fun e => lookupCreator coins e.coinId = some d.recipient)).map
             (fun e => e.solQuantity)).sum ∧
         HAVING_THRESHOLD ≤ d.amount)) ∧
    aggregate coinsW [ev1] 0 = [Distribution.mk "W" (1/50)] ∧
    (1/50 : ℚ) = FEE_RATE * 10 ∧ HAVING_THRESHOLD ≤ (1/50 : ℚ) := by
  refine ⟨?_, ?_, by norm_num [FEE_RATE], by norm_num [HAVING_THRESHOLD]⟩
  · intro coins events cursor d
    rw [mem_aggregate_iff, totalSolFor_eq_rate_mul]
  · norm_num [aggregate, eligibleEvents, lookupCreator, totalSolFor, FEE_RATE,
      HAVING_THRESHOLD, coinsW, ev1,
      List.filterMap_cons, List.filter_cons, List.dedup_nil, List.dedup_cons_of_mem,
      List.dedup_cons_of_not_mem, List.sum_cons, List.sum_nil, List.mem_cons,
      List.not_mem_nil]

/-- claim C9 amended: the cron handler ignores any would-be Running flag —
the trigger decision is independent of it — while the spec's single-flight
trigger skips the pass when one is Running. -/
theorem handleCron_ignores_running_flag (passRunning : Bool)
    (o : Nat → Nat → Outcome) (inp : PassInput) (s : ExecState) :
    handleCron passRunning o inp s = handleCron true o inp s ∧
    specSingleFlightTrigger true o inp s = s :=
  ⟨rfl, rfl⟩

/-- claim C10: the transfer instruction carries
`floor(amount * 10^9 * 0.99)` lamports while the distribution row and the
claimed-balance update (applied to the recipient's `users` row when it
exists) both use the unadjusted amount, which strictly exceeds the
transferred value for positive amounts. -/
theorem adjusted_transfer_lt_recorded (d : Distribution) (bh sig : Nat)
    (db : DbState) (h : 0 < d.amount) :
    (buildTransaction bh [d]).instrs =
      [TransferInstr.mk d.recipient (adjustedAmount d)] ∧
    adjustedAmount d = Int.floor (d.amount * 1000000000 * (99 / 100 : ℚ)) ∧
    (insertDistribution db d sig).feeDistributions =
      db.feeDistributions ++ [FeeDistribution.mk d.recipient sig d.amount] ∧
    (d.recipient ∈ db.userWallets →
      (insertDistribution db d sig).feesClaimedSoFar d.recipient =
        db.feesClaimedSoFar d.recipient + d.amount) ∧
    ((adjustedAmount d : ℚ)) < d.amount * LAMPORTS_PER_SOL := by
  refine ⟨rfl, rfl, rfl, fun hw => by simp [insertDistribution, hw], ?_⟩
  have h1 : ((adjustedAmount d : ℤ) : ℚ) ≤
      d.amount * LAMPORTS_PER_SOL * FEE_ADJUSTMENT := Int.floor_le _
  have hpos : 0 < d.amount * LAMPORTS_PER_SOL :=
    mul_pos h (by norm_num [LAMPORTS_PER_SOL])
  have hlt : FEE_ADJUSTMENT < 1 := by norm_num [FEE_ADJUSTMENT]
  have h2 : d.amount * LAMPORTS_PER_SOL * FEE_ADJUSTMENT <
      d.amount * LAMPORTS_PER_SOL := by
    calc d.amount * LAMPORTS_PER_SOL * FEE_ADJUSTMENT <
        d.amount * LAMPORTS_PER_SOL * 1 := mul_lt_mul_of_pos_left hlt hpos
      _ = d.amount * LAMPORTS_PER_SOL := mul_one _
  exact lt_of_le_of_lt h1 h2

/-- witness for C10, against the database holding a `users` row for W. -/
theorem adjusted_transfer_lt_recorded_witness :
    (0 : ℚ) < dW.amount ∧
    ((buildTransaction 7 [dW]).instrs =
       [TransferInstr.mk dW.recipient (adjustedAmount dW)] ∧
     adjustedAmount dW = Int.floor (dW.amount * 1000000000 * (99 / 100 : ℚ)) ∧
     (insertDistribution dbUserW dW 99).feeDistributions =
       dbUserW.feeDistributions ++ [FeeDistribution.mk dW.recipient 99 dW.amount] ∧
     (dW.recipient ∈ dbUserW.userWallets →
       (insertDistribution dbUserW dW 99).feesClaimedSoFar dW.recipient =
         dbUserW.feesClaimedSoFar dW.recipient + dW.amount) ∧
     ((adjustedAmount dW : ℚ)) < dW.amount * LAMPORTS_PER_SOL) :=
  ⟨by norm_num [dW], adjusted_transfer_lt_recorded dW 7 99 dbUserW (by norm_num [dW])⟩

